import Mathlib

/-!
Verification of the extended Kalman filter / smoother / posterior-sampler core
(`dynamax/nonlinear_gaussian_ssm/inference_ekf.py`) against its design
specification.

The code is shallowly embedded over exact rational arithmetic: state,
emission and input vectors are functions `Fin n → ℚ`, matrices are Mathlib
matrices over `ℚ`, and the `lax.scan` combinator is embedded as an explicit
forward scan (`scanl`) and backward scan (`scanr`, matching
`lax.scan` with the reverse flag, whose outputs stay aligned with the input
sequence).  External collaborators (Jacobian computation via `jacfwd`, the
multivariate-normal log-density and sampler, the splittable PRNG) are
modelled as explicitly supplied functions, following the specification's
description of them as opaque capabilities.
-/

open Matrix

abbrev Vec (n : Nat) := Fin n → ℚ

abbrev Mat (m n : Nat) := Matrix (Fin m) (Fin n) ℚ

/-- Modelled from the spec: `symmetrize` (imported from `dynamax.utils.utils`,
not part of the provided source) forces exact symmetry by averaging a matrix
with its transpose. -/
def symmetrize {n : Nat} (A : Mat n n) : Mat n n := ((1 : ℚ)/2) • (A + Aᵀ)

/-- The exact matrix inverse, embedding `jnp.linalg.inv` (for an invertible
argument) via the adjugate formula `A⁻¹ = det(A)⁻¹ • adj(A)`. -/
def matInv {n : Nat} (A : Mat n n) : Mat n n := (A.det)⁻¹ • A.adjugate

/-- Modelled from the spec: `psd_solve` (imported from `dynamax.utils.utils`,
not part of the provided source) solves the linear system `S X = B`, i.e.
returns `S⁻¹ B`, using a solver rather than an explicit inverse. -/
def psd_solve {n m : Nat} (S : Mat n n) (B : Mat n m) : Mat n m := matInv S * B

/-- Forward scan, embedding `jax.lax.scan`: threads a carry through the list
and collects the per-element outputs. -/
def scanl {C X Y : Type} (f : C → X → C × Y) : C → List X → C × List Y
  | c, [] => (c, [])
  | c, x :: xs =>
    let r1 := f c x
    let r2 := scanl f r1.1 xs
    (r2.1, r1.2 :: r2.2)

/-- Backward scan, embedding `jax.lax.scan` with the reverse flag: the carry
is threaded from the last element to the first, and the collected outputs
stay aligned with the input sequence. -/
def scanr {C X Y : Type} (f : C → X → C × Y) : C → List X → C × List Y
  | c, [] => (c, [])
  | c, x :: xs =>
    let r1 := scanr f c xs
    let r2 := f r1.1 x
    (r2.1, r2.2 :: r1.2)

/-- A covariance parameter that is either a single matrix broadcast to every
timestep or one matrix per timestep (the `x.ndim == dim + 1` shape dispatch
of `_get_params`). -/
inductive TimeParam (n : Nat) where
  | const : Mat n n → TimeParam n
  | varying : List (Mat n n) → TimeParam n

/-- Embeds the helper `_get_params x dim t = x[t] if x.ndim == dim + 1 else x`.
For a per-timestep parameter the JAX gather `x[t]` clamps an out-of-range
index into the valid range, so the embedded access clamps `t` to the last
position. -/
def get_params {n : Nat} : TimeParam n → Nat → Mat n n
  | .const A, _ => A
  | .varying l, t => l.getD (min t (l.length - 1)) 0

/-- The model-parameter container `ParamsNLGSSM`.  The Jacobian fields are
modelled from the spec: the linearization capability (`jacfwd`) is an
external collaborator, so the Jacobians of the dynamics and emission
functions are supplied alongside them. -/
structure ParamsNLGSSM (S E U : Nat) where
  initial_mean : Vec S
  initial_covariance : Mat S S
  dynamics_function : Vec S → Vec U → Vec S
  dynamics_jacobian : Vec S → Vec U → Mat S S
  dynamics_covariance : TimeParam S
  emission_function : Vec S → Vec U → Vec E
  emission_jacobian : Vec S → Vec U → Mat E S
  emission_covariance : TimeParam E

/-- Embeds `_process_input`: an absent input sequence is replaced by a zero
input at every timestep (the source pairs this with `_process_fn`, which
makes the supplied functions ignore that argument). -/
def resolve_inputs {U : Nat} (inputs : Option (List (Vec U))) (T : Nat) : List (Vec U) :=
  match inputs with
  | none => List.replicate T (0 : Vec U)
  | some l => l

/-- Clamped sequence access `xs[t]`, embedding JAX gather semantics for a
possibly out-of-range traced index. -/
def seq_get {α : Type} [Zero α] (xs : List α) (t : Nat) : α :=
  xs.getD (min t (xs.length - 1)) 0

/-- One round of the iterated relinearization loop inside `_condition_on`
(the body of its `_step`): relinearize at the carried mean, add the fixed
`1e-3` jitter to the innovation covariance, form the gain through the
explicit inverse, and apply the Joseph-form covariance update. -/
def condition_step {S E U : Nat} (h : Vec S → Vec U → Vec E) (H : Vec S → Vec U → Mat E S)
    (R : Mat E E) (u : Vec U) (y : Vec E) (carry : Vec S × Mat S S) : Vec S × Mat S S :=
  let pm := carry.1
  let pc := carry.2
  let H_x := H pm u
  let Sm := R + H_x * pc * H_xᵀ + ((1 : ℚ)/1000) • (1 : Mat E E)
  let K := pc * H_xᵀ * matInv Sm
  let J := (1 : Mat S S) - K * H_x
  (pm + K.mulVec (y - h pm u), J * pc * Jᵀ + K * R * Kᵀ)

/-- Embeds `_condition_on`: iterate the relinearization round `num_iter`
times starting from the prior (a `lax.scan` over `jnp.arange(num_iter)` that
ignores the scanned index is exactly function iteration), then force the
returned covariance symmetric. -/
def condition_on {S E U : Nat} (prior_mean : Vec S) (prior_cov : Mat S S)
    (h : Vec S → Vec U → Vec E) (H : Vec S → Vec U → Mat E S)
    (R : Mat E E) (u : Vec U) (y : Vec E) (num_iter : Nat) : Vec S × Mat S S :=
  let r := (condition_step h H R u y)^[num_iter] (prior_mean, prior_cov)
  (r.1, symmetrize r.2)

/-- Embeds `_predict`: propagate the mean through the dynamics and the
covariance through the Jacobian, adding the dynamics noise. -/
def predict {S U : Nat} (prior_mean : Vec S) (prior_cov : Mat S S)
    (f : Vec S → Vec U → Vec S) (F : Vec S → Vec U → Mat S S)
    (Q : Mat S S) (u : Vec U) : Vec S × Mat S S :=
  let F_x := F prior_mean u
  (f prior_mean u, F_x * prior_cov * F_xᵀ + Q)

/-- The per-timestep record assembled by the filter's scan body (the
`outputs` dictionary before field selection). -/
structure StepOut (S : Nat) where
  filtered_mean : Vec S
  filtered_cov : Mat S S
  pred_mean : Vec S
  pred_cov : Mat S S
  ll : ℚ

/-- Embeds the `_step` body of `extended_kalman_filter`: resolve the
time-indexed parameters, accumulate the marginal log-likelihood at the
predicted mean and covariance, condition on the emission, and predict the
next state.  The multivariate-normal log-density is the external `logpdf`
argument (mean, covariance, value). -/
def filter_step {S E U : Nat} (params : ParamsNLGSSM S E U)
    (logpdf : Vec E → Mat E E → Vec E → ℚ)
    (inputs : List (Vec U)) (emissions : List (Vec E)) (num_iter : Nat)
    (carry : ℚ × Vec S × Mat S S) (t : Nat) : (ℚ × Vec S × Mat S S) × StepOut S :=
  let ll := carry.1
  let pred_mean := carry.2.1
  let pred_cov := carry.2.2
  let Q := get_params params.dynamics_covariance t
  let R := get_params params.emission_covariance t
  let u := seq_get inputs t
  let y := seq_get emissions t
  let H_x := params.emission_jacobian pred_mean u
  let ll2 := ll + logpdf (params.emission_function pred_mean u) (H_x * pred_cov * H_xᵀ + R) y
  let fc := condition_on pred_mean pred_cov params.emission_function
    params.emission_jacobian R u y num_iter
  let pr := predict fc.1 fc.2 params.dynamics_function params.dynamics_jacobian Q u
  ((ll2, pr.1, pr.2), ⟨fc.1, fc.2, pr.1, pr.2, ll2⟩)

/-- The filter's forward scan over `jnp.arange(num_timesteps)` from the
initial carry `(0, m0, S0)`. -/
def ekf_scan {S E U : Nat} (params : ParamsNLGSSM S E U)
    (logpdf : Vec E → Mat E E → Vec E → ℚ)
    (emissions : List (Vec E)) (inputs : Option (List (Vec U)))
    (num_iter : Nat) : (ℚ × Vec S × Mat S S) × List (StepOut S) :=
  let T := emissions.length
  scanl (filter_step params logpdf (resolve_inputs inputs T) emissions num_iter)
    (0, params.initial_mean, params.initial_covariance) (List.range T)

/-- The `marginal_loglik` field of the returned posterior: the final scalar
carry, unless `"marginal_loglik"` is selected in `output_fields`, in which
case the dictionary splat `{"marginal_loglik": ll, **outputs}` replaces the
scalar by the stacked per-timestep values. -/
inductive MarginalLL where
  | scalar : ℚ → MarginalLL
  | perStep : List ℚ → MarginalLL
deriving DecidableEq

/-- The filtered posterior container `PosteriorGSSMFiltered`; fields not
selected by `output_fields` are absent. -/
structure PosteriorGSSMFiltered (S : Nat) where
  marginal_loglik : MarginalLL
  filtered_means : Option (List (Vec S))
  filtered_covariances : Option (List (Mat S S))
  predicted_means : Option (List (Vec S))
  predicted_covariances : Option (List (Mat S S))

/-- The default `output_fields` argument of `extended_kalman_filter`. -/
def default_output_fields : List String :=
  ["filtered_means", "filtered_covariances", "predicted_means", "predicted_covariances"]

/-- Embeds `extended_kalman_filter`: run the scan, then assemble the
posterior, retaining each sequence field exactly when it is selected and
letting a selected `"marginal_loglik"` override the scalar total with the
stacked per-step values. -/
def extended_kalman_filter {S E U : Nat} (params : ParamsNLGSSM S E U)
    (logpdf : Vec E → Mat E E → Vec E → ℚ)
    (emissions : List (Vec E)) (inputs : Option (List (Vec U)))
    (num_iter : Nat) (output_fields : List String) : PosteriorGSSMFiltered S :=
  let r := ekf_scan params logpdf emissions inputs num_iter
  let ll := r.1.1
  let outs := r.2
  { marginal_loglik :=
      if "marginal_loglik" ∈ output_fields then .perStep (outs.map (·.ll)) else .scalar ll
    filtered_means :=
      if "filtered_means" ∈ output_fields then some (outs.map (·.filtered_mean)) else none
    filtered_covariances :=
      if "filtered_covariances" ∈ output_fields then some (outs.map (·.filtered_cov)) else none
    predicted_means :=
      if "predicted_means" ∈ output_fields then some (outs.map (·.pred_mean)) else none
    predicted_covariances :=
      if "predicted_covariances" ∈ output_fields then some (outs.map (·.pred_cov)) else none }

/-- The smoothed posterior container `PosteriorGSSMSmoothed`. -/
structure PosteriorGSSMSmoothed (S : Nat) where
  marginal_loglik : MarginalLL
  filtered_means : List (Vec S)
  filtered_covariances : List (Mat S S)
  smoothed_means : List (Vec S)
  smoothed_covariances : List (Mat S S)

/-- Embeds the `_step` body of `extended_kalman_smoother` (which returns its
result both as the new carry and as the collected output): one-step
prediction at the filtered estimate, smoother gain by a solve, and the RTS
mean and covariance updates. -/
def smooth_step {S E U : Nat} (params : ParamsNLGSSM S E U) (inputs : List (Vec U))
    (carry : Vec S × Mat S S) (args : Nat × Vec S × Mat S S) : Vec S × Mat S S :=
  let smoothed_mean_next := carry.1
  let smoothed_cov_next := carry.2
  let t := args.1
  let filtered_mean := args.2.1
  let filtered_cov := args.2.2
  let Q := get_params params.dynamics_covariance t
  let u := seq_get inputs t
  let F_x := params.dynamics_jacobian filtered_mean u
  let m_pred := params.dynamics_function filtered_mean u
  let S_pred := Q + F_x * filtered_cov * F_xᵀ
  let G := (psd_solve S_pred (F_x * filtered_cov))ᵀ
  let smoothed_mean := filtered_mean + G.mulVec (smoothed_mean_next - m_pred)
  let smoothed_cov := filtered_cov + G * (smoothed_cov_next - S_pred) * Gᵀ
  (smoothed_mean, smoothed_cov)

/-- Wraps a step whose new carry and collected output coincide, as in the
smoother and sampler scan bodies. -/
def diag_step {C X : Type} (g : C → X → C) : C → X → C × C := fun c x => (g c x, g c x)

/-- Embeds `extended_kalman_smoother`: compute the filtered posterior if one
is not supplied, scan backward over
`zip(arange(T-1), filtered_means[:-1], filtered_covs[:-1])` starting from the
last filtered estimate, and append that last filtered estimate to the
collected outputs. -/
def extended_kalman_smoother {S E U : Nat} (params : ParamsNLGSSM S E U)
    (logpdf : Vec E → Mat E E → Vec E → ℚ)
    (emissions : List (Vec E)) (filtered_posterior : Option (PosteriorGSSMFiltered S))
    (inputs : Option (List (Vec U))) : PosteriorGSSMSmoothed S :=
  let T := emissions.length
  let post := match filtered_posterior with
    | none => extended_kalman_filter params logpdf emissions inputs 1 default_output_fields
    | some p => p
  let ll := post.marginal_loglik
  let fms := post.filtered_means.getD []
  let fcs := post.filtered_covariances.getD []
  let ins := resolve_inputs inputs T
  let fm_last := fms.getLast?.getD 0
  let fc_last := fcs.getLast?.getD 0
  let args := (List.range (T - 1)).map (fun t => (t, fms.getD t 0, fcs.getD t 0))
  let r := scanr (diag_step (smooth_step params ins)) (fm_last, fc_last) args
  { marginal_loglik := ll
    filtered_means := fms
    filtered_covariances := fcs
    smoothed_means := r.2.map (·.1) ++ [fm_last]
    smoothed_covariances := r.2.map (·.2) ++ [fc_last] }

/-- Embeds the `_step` body of `extended_kalman_posterior_sample` (which also
returns its result both as the new carry and as the collected output):
condition the filtered estimate at `t` on the already-sampled next state
through the dynamics model (one relinearization round), then draw from the
resulting Gaussian with the per-step key.  The Gaussian sampler is the
external `sample` argument (mean, covariance, key). -/
def sample_step {S E U : Nat} {K : Type} (params : ParamsNLGSSM S E U)
    (sample : Vec S → Mat S S → K → Vec S) (inputs : List (Vec U))
    (next_state : Vec S) (args : K × Vec S × Mat S S × Nat) : Vec S :=
  let k := args.1
  let filtered_mean := args.2.1
  let filtered_cov := args.2.2.1
  let t := args.2.2.2
  let Q := get_params params.dynamics_covariance t
  let u := seq_get inputs t
  let r := condition_on filtered_mean filtered_cov params.dynamics_function
    params.dynamics_jacobian Q u next_state 1
  sample r.1 r.2 k

/-- Embeds `extended_kalman_posterior_sample`.  The splittable PRNG is
modelled from the spec as external capabilities: `split2` is
`jr.split(key, 2)` and `splitN key n t` is the `t`-th of the `n` keys
produced by `jr.split(key, n)`.  The last state is drawn from the last
filtered estimate, the remaining states are drawn backward by conditioning
on the previously drawn state, and the draws are returned in forward time
order (the backward scan keeps outputs aligned with `arange(T-1)`). -/
def extended_kalman_posterior_sample {S E U : Nat} {K : Type}
    (split2 : K → K × K) (splitN : K → Nat → Nat → K)
    (sample : Vec S → Mat S S → K → Vec S) (key : K)
    (params : ParamsNLGSSM S E U) (logpdf : Vec E → Mat E E → Vec E → ℚ)
    (emissions : List (Vec E)) (inputs : Option (List (Vec U))) : List (Vec S) :=
  let T := emissions.length
  let post := extended_kalman_filter params logpdf emissions inputs 1 default_output_fields
  let fms := post.filtered_means.getD []
  let fcs := post.filtered_covariances.getD []
  let ins := resolve_inputs inputs T
  let ks := split2 key
  let last_state := sample (fms.getLast?.getD 0) (fcs.getLast?.getD 0) ks.2
  let args := (List.range (T - 1)).map
    (fun t => (splitN ks.1 (T - 1) t, fms.getD t 0, fcs.getD t 0, t))
  let r := scanr (diag_step (sample_step params sample ins)) last_state args
  r.2 ++ [last_state]

/-! ### Scan infrastructure -/

/-- The carry threaded through a forward scan, as a fold. -/
def scan_carry {C X Y : Type} (f : C → X → C × Y) (c : C) (xs : List X) : C :=
  xs.foldl (fun c x => (f c x).1) c

/-- The carry of a forward scan over the naturals below `t`, as an explicit
recursion on `t`. -/
def iter_carry {C Y : Type} (f : C → Nat → C × Y) (c : C) : Nat → C
  | 0 => c
  | t + 1 => (f (iter_carry f c t) t).1

theorem scanl_length {C X Y : Type} (f : C → X → C × Y) (c : C) (xs : List X) :
    (scanl f c xs).2.length = xs.length := by
  induction xs generalizing c with
  | nil => rfl
  | cons x xs ih => simp [scanl, ih]

theorem scanr_length {C X Y : Type} (f : C → X → C × Y) (c : C) (xs : List X) :
    (scanr f c xs).2.length = xs.length := by
  induction xs generalizing c with
  | nil => rfl
  | cons x xs ih => simp [scanr, ih]

theorem scanl_fst {C X Y : Type} (f : C → X → C × Y) (c : C) (xs : List X) :
    (scanl f c xs).1 = scan_carry f c xs := by
  induction xs generalizing c with
  | nil => rfl
  | cons x xs ih => simpa [scanl, scan_carry] using ih (f c x).1

theorem scanl_getD {C X Y : Type} (f : C → X → C × Y) (c : C) (xs : List X)
    (t : Nat) (d : Y) (dx : X) (ht : t < xs.length) :
    (scanl f c xs).2.getD t d = (f (scan_carry f c (xs.take t)) (xs.getD t dx)).2 := by
  induction xs generalizing c t with
  | nil => cases ht
  | cons x xs ih =>
    cases t with
    | zero => simp [scanl, scan_carry]
    | succ t => simpa [scanl, scan_carry] using ih (f c x).1 t (Nat.lt_of_succ_lt_succ ht)

theorem scan_carry_range {C Y : Type} (f : C → Nat → C × Y) (c : C) (t : Nat) :
    scan_carry f c (List.range t) = iter_carry f c t := by
  induction t with
  | zero => rfl
  | succ t ih =>
    rw [List.range_succ]
    simp only [scan_carry, List.foldl_append, List.foldl_cons, List.foldl_nil]
    rw [← scan_carry, ih]
    rfl

theorem scanr_getD {C X Y : Type} (f : C → X → C × Y) (c : C) (xs : List X)
    (t : Nat) (d : Y) (dx : X) (ht : t < xs.length) :
    (scanr f c xs).2.getD t d = (f (scanr f c (xs.drop (t + 1))).1 (xs.getD t dx)).2 := by
  induction xs generalizing t with
  | nil => cases ht
  | cons x xs ih =>
    cases t with
    | zero => simp [scanr]
    | succ t => simpa [scanr] using ih t (Nat.lt_of_succ_lt_succ ht)

theorem scanr_diag_drop_fst {C X : Type} (g : C → X → C) (c : C) (xs : List X)
    (t : Nat) (d : C) (ht : t ≤ xs.length) :
    (scanr (diag_step g) c (xs.drop t)).1
      = ((scanr (diag_step g) c xs).2 ++ [c]).getD t d := by
  induction xs generalizing t with
  | nil =>
    have ht0 : t = 0 := Nat.le_zero.mp (by simpa using ht)
    subst ht0
    rfl
  | cons x xs ih =>
    cases t with
    | zero => cases hx : scanr (diag_step g) c xs with
      | mk c1 ys => simp [scanr, hx, diag_step]
    | succ t =>
      have h1 := ih t (Nat.le_of_succ_le_succ ht)
      simpa [scanr] using h1

theorem scanr_diag_getD {C X : Type} (g : C → X → C) (c : C) (xs : List X)
    (t : Nat) (d : C) (dx : X) (ht : t < xs.length) :
    ((scanr (diag_step g) c xs).2 ++ [c]).getD t d
      = g (((scanr (diag_step g) c xs).2 ++ [c]).getD (t + 1) d) (xs.getD t dx) := by
  have hlen : (scanr (diag_step g) c xs).2.length = xs.length := scanr_length _ _ _
  have h1 : ((scanr (diag_step g) c xs).2 ++ [c]).getD t d
      = (scanr (diag_step g) c xs).2.getD t d := by
    rw [List.getD_append]
    omega
  rw [h1, scanr_getD (diag_step g) c xs t d dx ht,
    scanr_diag_drop_fst g c xs (t + 1) d ht]
  rfl

theorem scanl_inv {C X Y : Type} (f : C → X → C × Y) (P : C → Prop) (Qy : Y → Prop)
    (c : C) (xs : List X) (hc : P c)
    (hf : ∀ c x, x ∈ xs → P c → P (f c x).1 ∧ Qy (f c x).2) :
    P (scanl f c xs).1 ∧ ∀ y ∈ (scanl f c xs).2, Qy y := by
  induction xs generalizing c with
  | nil => exact ⟨hc, by simp [scanl]⟩
  | cons x xs ih =>
    have hx := hf c x (by simp) hc
    have h2 := ih (f c x).1 hx.1 (fun c' x' hm hp => hf c' x' (by simp [hm]) hp)
    refine ⟨h2.1, ?_⟩
    intro y hy
    simp only [scanl, List.mem_cons] at hy
    rcases hy with hy | hy
    · exact hy ▸ hx.2
    · exact h2.2 y hy

theorem scanr_inv {C X Y : Type} (f : C → X → C × Y) (P : C → Prop) (Qy : Y → Prop)
    (c : C) (xs : List X) (hc : P c)
    (hf : ∀ c x, x ∈ xs → P c → P (f c x).1 ∧ Qy (f c x).2) :
    P (scanr f c xs).1 ∧ ∀ y ∈ (scanr f c xs).2, Qy y := by
  induction xs generalizing c with
  | nil => exact ⟨hc, by simp [scanr]⟩
  | cons x xs ih =>
    have h2 := ih c hc (fun c' x' hm hp => hf c' x' (by simp [hm]) hp)
    have hx := hf (scanr f c xs).1 x (by simp) h2.1
    refine ⟨hx.1, ?_⟩
    intro y hy
    simp only [scanr, List.mem_cons] at hy
    rcases hy with hy | hy
    · exact hy ▸ hx.2
    · exact h2.2 y hy

theorem scanl_congr {C X Y : Type} (f g : C → X → C × Y) (c : C) (xs : List X)
    (h : ∀ c x, x ∈ xs → f c x = g c x) : scanl f c xs = scanl g c xs := by
  induction xs generalizing c with
  | nil => rfl
  | cons x xs ih =>
    simp only [scanl]
    rw [h c x (by simp), ih (g c x).1 (fun c' x' hm => h c' x' (by simp [hm]))]

/-! ### Symmetry facts -/

theorem symmetrize_transpose {n : Nat} (A : Mat n n) : (symmetrize A)ᵀ = symmetrize A := by
  simp [symmetrize, Matrix.transpose_add, add_comm]

theorem symmetrize_eq_self {n : Nat} (A : Mat n n) (h : Aᵀ = A) : symmetrize A = A := by
  rw [symmetrize, h, ← two_smul ℚ A, smul_smul]
  norm_num

/-! ### List access helpers -/

theorem getD_map_of_lt {α β : Type} (f : α → β) (l : List α) (t : Nat) (d : α)
    (ht : t < l.length) : (l.map f).getD t (f d) = f (l.getD t d) := by
  induction l generalizing t with
  | nil => cases ht
  | cons x xs ih =>
    cases t with
    | zero => rfl
    | succ t => simpa using ih t (Nat.lt_of_succ_lt_succ ht)

theorem getD_range_map {β : Type} (f : Nat → β) (n t : Nat) (d : β) (ht : t < n) :
    ((List.range n).map f).getD t d = f t := by
  induction n with
  | zero => cases ht
  | succ n ih =>
    rw [List.range_succ, List.map_append]
    rcases Nat.lt_or_ge t n with h | h
    · rw [List.getD_append _ _ _ _ (by simpa using h)]
      exact ih h
    · have htn : t = n := Nat.le_antisymm (Nat.lt_succ_iff.mp ht) h
      subst htn
      rw [List.getD_append_right _ _ _ _ (by simp)]
      simp [List.getD]

theorem getD_range_of_lt (n t : Nat) (d : Nat) (ht : t < n) :
    (List.range n).getD t d = t := by
  have := getD_range_map (fun x => x) n t d ht
  simpa using this

/-! ### Filter carry characterization -/

/-- The filter's scan carry after `t` steps (accumulated log-likelihood, then
the predicted mean and covariance entering step `t`). -/
def filter_carry {S E U : Nat} (params : ParamsNLGSSM S E U)
    (logpdf : Vec E → Mat E E → Vec E → ℚ)
    (inputs : List (Vec U)) (emissions : List (Vec E)) (num_iter : Nat) (t : Nat) :
    ℚ × Vec S × Mat S S :=
  iter_carry (filter_step params logpdf inputs emissions num_iter)
    (0, params.initial_mean, params.initial_covariance) t

theorem ekf_scan_fst {S E U : Nat} (params : ParamsNLGSSM S E U)
    (logpdf : Vec E → Mat E E → Vec E → ℚ)
    (emissions : List (Vec E)) (inputs : Option (List (Vec U))) (num_iter : Nat) :
    (ekf_scan params logpdf emissions inputs num_iter).1
      = filter_carry params logpdf (resolve_inputs inputs emissions.length) emissions
          num_iter emissions.length := by
  unfold ekf_scan filter_carry
  rw [scanl_fst, scan_carry_range]

/-- A default per-step record, used only as the default of list access. -/
def StepOut.dflt {S : Nat} : StepOut S := ⟨0, 0, 0, 0, 0⟩

theorem ekf_scan_length {S E U : Nat} (params : ParamsNLGSSM S E U)
    (logpdf : Vec E → Mat E E → Vec E → ℚ)
    (emissions : List (Vec E)) (inputs : Option (List (Vec U))) (num_iter : Nat) :
    (ekf_scan params logpdf emissions inputs num_iter).2.length = emissions.length := by
  unfold ekf_scan
  rw [scanl_length]
  exact List.length_range _

theorem ekf_scan_getD {S E U : Nat} (params : ParamsNLGSSM S E U)
    (logpdf : Vec E → Mat E E → Vec E → ℚ)
    (emissions : List (Vec E)) (inputs : Option (List (Vec U))) (num_iter : Nat)
    (t : Nat) (ht : t < emissions.length) :
    (ekf_scan params logpdf emissions inputs num_iter).2.getD t StepOut.dflt
      = (filter_step params logpdf (resolve_inputs inputs emissions.length) emissions num_iter
          (filter_carry params logpdf (resolve_inputs inputs emissions.length) emissions
            num_iter t) t).2 := by
  unfold ekf_scan filter_carry
  rw [scanl_getD _ _ _ t StepOut.dflt 0 (by simpa using ht)]
  rw [List.take_range, Nat.min_eq_left (Nat.le_of_lt (by simpa using ht)), scan_carry_range,
    getD_range_of_lt _ _ _ ht]

/-! ### Joseph-form symmetry -/

theorem joseph_transpose {S E : Nat} (P : Mat S S) (R : Mat E E) (K : Mat S E)
    (Hx : Mat E S) (hP : Pᵀ = P) (hR : Rᵀ = R) :
    (((1 : Mat S S) - K * Hx) * P * ((1 : Mat S S) - K * Hx)ᵀ + K * R * Kᵀ)ᵀ
      = ((1 : Mat S S) - K * Hx) * P * ((1 : Mat S S) - K * Hx)ᵀ + K * R * Kᵀ := by
  simp [Matrix.transpose_add, Matrix.transpose_mul, Matrix.transpose_transpose, hP, hR,
    Matrix.mul_assoc]

theorem condition_on_zero {S E U : Nat} (m : Vec S) (P : Mat S S)
    (h : Vec S → Vec U → Vec E) (H : Vec S → Vec U → Mat E S)
    (R : Mat E E) (u : Vec U) (y : Vec E) :
    condition_on m P h H R u y 0 = (m, symmetrize P) := rfl

/-- Claim C1: for a call of the Gaussian conditioning routine with
`num_relinearizations = 1`, writing `H` for the emission Jacobian at the
prior mean, the returned pair is computed with innovation covariance
`S = R + H P Hᵀ + 1e-3 I` (the jitter always added), gain
`K = P Hᵀ S⁻¹`, the Joseph-form covariance
`(I − K H) P (I − K H)ᵀ + K R Kᵀ`, and mean `m + K (y − h(m, u))`.
The `Sm`/`K` binders name the innovation covariance and gain; the prior and
emission covariances are assumed symmetric, so the final defensive
symmetrization of the Joseph form leaves it unchanged. -/
theorem C1_condition_on_single_round {S E U : Nat} (m : Vec S) (P : Mat S S)
    (h : Vec S → Vec U → Vec E) (H : Vec S → Vec U → Mat E S)
    (R : Mat E E) (u : Vec U) (y : Vec E) (Sm : Mat E E) (K : Mat S E)
    (hSm : Sm = R + H m u * P * (H m u)ᵀ + ((1 : ℚ)/1000) • (1 : Mat E E))
    (hK : K = P * (H m u)ᵀ * matInv Sm)
    (hP : Pᵀ = P) (hR : Rᵀ = R) :
    condition_on m P h H R u y 1
      = (m + K.mulVec (y - h m u),
         ((1 : Mat S S) - K * H m u) * P * ((1 : Mat S S) - K * H m u)ᵀ + K * R * Kᵀ) := by
  subst hSm
  subst hK
  simp only [condition_on, Function.iterate_one, condition_step]
  exact Prod.ext rfl (symmetrize_eq_self _ (joseph_transpose P R _ _ hP hR))

/-- Claim C2: at every timestep the filter adds to the accumulated
log-likelihood the log-density of the observation under the Gaussian whose
mean is the emission function at the *predicted* mean and whose covariance
is `H pred_cov Hᵀ + R` with `H` the emission Jacobian at the predicted mean
— no `1e-3` jitter appears — and the total after `T` steps is the sum of
these per-step terms; the predicted carry entering step `t` (from which the
term is computed) is the one produced by conditioning and prediction at the
earlier steps. -/
theorem C2_loglik_uses_predicted {S E U : Nat} (params : ParamsNLGSSM S E U)
    (logpdf : Vec E → Mat E E → Vec E → ℚ)
    (emissions : List (Vec E)) (inputs : Option (List (Vec U))) (num_iter : Nat) :
    (∀ n : Nat,
      (filter_carry params logpdf (resolve_inputs inputs emissions.length) emissions
          num_iter n).1
        = ((List.range n).map (fun t =>
            let c := filter_carry params logpdf (resolve_inputs inputs emissions.length)
              emissions num_iter t
            let u := seq_get (resolve_inputs inputs emissions.length) t
            let H_x := params.emission_jacobian c.2.1 u
            logpdf (params.emission_function c.2.1 u)
              (H_x * c.2.2 * H_xᵀ + get_params params.emission_covariance t)
              (seq_get emissions t))).sum) ∧
    (ekf_scan params logpdf emissions inputs num_iter).1.1
      = ((List.range emissions.length).map (fun t =>
          let c := filter_carry params logpdf (resolve_inputs inputs emissions.length)
            emissions num_iter t
          let u := seq_get (resolve_inputs inputs emissions.length) t
          let H_x := params.emission_jacobian c.2.1 u
          logpdf (params.emission_function c.2.1 u)
            (H_x * c.2.2 * H_xᵀ + get_params params.emission_covariance t)
            (seq_get emissions t))).sum := by
  have key : ∀ n : Nat,
      (filter_carry params logpdf (resolve_inputs inputs emissions.length) emissions
          num_iter n).1
        = ((List.range n).map (fun t =>
            let c := filter_carry params logpdf (resolve_inputs inputs emissions.length)
              emissions num_iter t
            let u := seq_get (resolve_inputs inputs emissions.length) t
            let H_x := params.emission_jacobian c.2.1 u
            logpdf (params.emission_function c.2.1 u)
              (H_x * c.2.2 * H_xᵀ + get_params params.emission_covariance t)
              (seq_get emissions t))).sum := by
    intro n
    induction n with
    | zero => rfl
    | succ n ih =>
      rw [List.range_succ, List.map_append, List.sum_append]
      have hstep : (filter_carry params logpdf (resolve_inputs inputs emissions.length)
          emissions num_iter (n + 1)).1
          = (filter_carry params logpdf (resolve_inputs inputs emissions.length) emissions
              num_iter n).1
            + (let c := filter_carry params logpdf (resolve_inputs inputs emissions.length)
                emissions num_iter n
               let u := seq_get (resolve_inputs inputs emissions.length) n
               let H_x := params.emission_jacobian c.2.1 u
               logpdf (params.emission_function c.2.1 u)
                 (H_x * c.2.2 * H_xᵀ + get_params params.emission_covariance n)
                 (seq_get emissions n)) := rfl
      rw [hstep, ih]
      simp
  exact ⟨key, by rw [ekf_scan_fst]; exact key emissions.length⟩

/-- Claim C10: with `num_iter = 0` (below the documented minimum of 1) the
conditioning loop performs zero rounds and returns the prior mean together
with the symmetrized prior covariance, so the filter's filtered estimate at
every timestep equals the predicted carry entering that timestep — the
measurement update is silently skipped. -/
theorem C10_zero_iterations {S E U : Nat} (m : Vec S) (P : Mat S S)
    (h : Vec S → Vec U → Vec E) (H : Vec S → Vec U → Mat E S)
    (R : Mat E E) (u : Vec U) (y : Vec E)
    (params : ParamsNLGSSM S E U) (logpdf : Vec E → Mat E E → Vec E → ℚ)
    (emissions : List (Vec E)) (inputs : Option (List (Vec U))) (t : Nat)
    (ht : t < emissions.length) :
    condition_on m P h H R u y 0 = (m, symmetrize P) ∧
    ((ekf_scan params logpdf emissions inputs 0).2.getD t StepOut.dflt).filtered_mean
      = (filter_carry params logpdf (resolve_inputs inputs emissions.length) emissions
          0 t).2.1 ∧
    ((ekf_scan params logpdf emissions inputs 0).2.getD t StepOut.dflt).filtered_cov
      = symmetrize (filter_carry params logpdf (resolve_inputs inputs emissions.length)
          emissions 0 t).2.2 := by
  refine ⟨rfl, ?_, ?_⟩ <;>
  · rw [ekf_scan_getD _ _ _ _ _ t ht]
    rfl

/-! ### The spec's concrete 1-D linear scenario -/

/-- Constant 1-D state/observation vector. -/
def cvec (a : ℚ) : Vec 1 := fun _ => a

/-- Constant 1-D matrix. -/
def cmat (a : ℚ) : Mat 1 1 := fun _ _ => a

/-- The linear dynamics `f(x, u) = 0.9 x` of the spec's concrete scenario. -/
def lin_f : Vec 1 → Vec 1 → Vec 1 := fun x _ i => (9/10 : ℚ) * x i

/-- The exact Jacobian of `lin_f`, as the linearization capability returns it. -/
def lin_F : Vec 1 → Vec 1 → Mat 1 1 := fun _ _ _ _ => (9/10 : ℚ)

/-- The linear emission `h(x, u) = x` of the spec's concrete scenario. -/
def lin_h : Vec 1 → Vec 1 → Vec 1 := fun x _ => x

/-- The exact Jacobian of `lin_h`. -/
def lin_H : Vec 1 → Vec 1 → Mat 1 1 := fun _ _ _ _ => (1 : ℚ)

/-- The spec's 1-D linear model: `f(x)=0.9x`, `h(x)=x`, `Q=0.1`, `R=1`,
`m0=0`, `S0=1`. -/
def exampleParams : ParamsNLGSSM 1 1 1 where
  initial_mean := cvec 0
  initial_covariance := cmat 1
  dynamics_function := lin_f
  dynamics_jacobian := lin_F
  dynamics_covariance := .const (cmat (1/10))
  emission_function := lin_h
  emission_jacobian := lin_H
  emission_covariance := .const (cmat 1)

/-- The spec's observation sequence `[0.5, -0.2, 0.8]`. -/
def exampleEmissions : List (Vec 1) := [cvec (1/2), cvec (-(1/5)), cvec (4/5)]

/-- A concrete stand-in for the external log-density capability (the filtered
means and covariances do not depend on it). -/
def zlp : Vec 1 → Mat 1 1 → Vec 1 → ℚ := fun _ _ _ => 0

/-- The innovation covariance of the C1 witness instance. -/
def exSm : Mat 1 1 :=
  cmat 1 + lin_H (cvec 0) (cvec 0) * cmat 1 * (lin_H (cvec 0) (cvec 0))ᵀ
    + ((1 : ℚ)/1000) • (1 : Mat 1 1)

/-- The gain of the C1 witness instance. -/
def exK : Mat 1 1 := cmat 1 * (lin_H (cvec 0) (cvec 0))ᵀ * matInv exSm

theorem C1_condition_on_single_round_witness :
    ((cmat 1)ᵀ = cmat 1 ∧ (cmat 1)ᵀ = cmat 1) ∧
    condition_on (cvec 0) (cmat 1) lin_h lin_H (cmat 1) (cvec 0) (cvec 1) 1
      = (cvec 0 + exK.mulVec (cvec 1 - lin_h (cvec 0) (cvec 0)),
         ((1 : Mat 1 1) - exK * lin_H (cvec 0) (cvec 0)) * cmat 1 *
            ((1 : Mat 1 1) - exK * lin_H (cvec 0) (cvec 0))ᵀ + exK * cmat 1 * exKᵀ) :=
  ⟨⟨rfl, rfl⟩,
    C1_condition_on_single_round (cvec 0) (cmat 1) lin_h lin_H (cmat 1) (cvec 0) (cvec 1)
      exSm exK rfl rfl rfl rfl⟩

theorem C10_zero_iterations_witness :
    1 < exampleEmissions.length ∧
    (condition_on (cvec 0) (cmat 1) lin_h lin_H (cmat 1) (cvec 0) (cvec 1) 0
        = (cvec 0, symmetrize (cmat 1)) ∧
     ((ekf_scan exampleParams zlp exampleEmissions none 0).2.getD 1 StepOut.dflt).filtered_mean
        = (filter_carry exampleParams zlp (resolve_inputs none exampleEmissions.length)
            exampleEmissions 0 1).2.1 ∧
     ((ekf_scan exampleParams zlp exampleEmissions none 0).2.getD 1 StepOut.dflt).filtered_cov
        = symmetrize (filter_carry exampleParams zlp
            (resolve_inputs none exampleEmissions.length) exampleEmissions 0 1).2.2) :=
  ⟨by decide,
    C10_zero_iterations (cvec 0) (cmat 1) lin_h lin_H (cmat 1) (cvec 0) (cvec 1)
      exampleParams zlp exampleEmissions none 1 (by decide)⟩

/-! ### Smoother characterization -/

theorem ekf_default_filtered_means {S E U : Nat} (params : ParamsNLGSSM S E U)
    (logpdf : Vec E → Mat E E → Vec E → ℚ) (emissions : List (Vec E))
    (inputs : Option (List (Vec U))) (n : Nat) :
    (extended_kalman_filter params logpdf emissions inputs n
        default_output_fields).filtered_means
      = some ((ekf_scan params logpdf emissions inputs n).2.map (·.filtered_mean)) := by
  simp [extended_kalman_filter, default_output_fields]

theorem ekf_default_filtered_covs {S E U : Nat} (params : ParamsNLGSSM S E U)
    (logpdf : Vec E → Mat E E → Vec E → ℚ) (emissions : List (Vec E))
    (inputs : Option (List (Vec U))) (n : Nat) :
    (extended_kalman_filter params logpdf emissions inputs n
        default_output_fields).filtered_covariances
      = some ((ekf_scan params logpdf emissions inputs n).2.map (·.filtered_cov)) := by
  simp [extended_kalman_filter, default_output_fields]

/-- Proof abbreviation: the filtered means consumed by the smoother when no
filtered posterior is supplied. -/
def s_fms {S E U : Nat} (params : ParamsNLGSSM S E U)
    (logpdf : Vec E → Mat E E → Vec E → ℚ) (emissions : List (Vec E))
    (inputs : Option (List (Vec U))) : List (Vec S) :=
  (ekf_scan params logpdf emissions inputs 1).2.map (·.filtered_mean)

/-- Proof abbreviation: the filtered covariances consumed by the smoother. -/
def s_fcs {S E U : Nat} (params : ParamsNLGSSM S E U)
    (logpdf : Vec E → Mat E E → Vec E → ℚ) (emissions : List (Vec E))
    (inputs : Option (List (Vec U))) : List (Mat S S) :=
  (ekf_scan params logpdf emissions inputs 1).2.map (·.filtered_cov)

/-- Proof abbreviation: the smoother's boundary carry (the last filtered
mean and covariance). -/
def s_init {S E U : Nat} (params : ParamsNLGSSM S E U)
    (logpdf : Vec E → Mat E E → Vec E → ℚ) (emissions : List (Vec E))
    (inputs : Option (List (Vec U))) : Vec S × Mat S S :=
  ((s_fms params logpdf emissions inputs).getLast?.getD 0,
   (s_fcs params logpdf emissions inputs).getLast?.getD 0)

/-- Proof abbreviation: the zipped per-timestep arguments of the smoother's
backward scan. -/
def s_args {S E U : Nat} (params : ParamsNLGSSM S E U)
    (logpdf : Vec E → Mat E E → Vec E → ℚ) (emissions : List (Vec E))
    (inputs : Option (List (Vec U))) : List (Nat × Vec S × Mat S S) :=
  (List.range (emissions.length - 1)).map
    (fun s => (s, (s_fms params logpdf emissions inputs).getD s 0,
      (s_fcs params logpdf emissions inputs).getD s 0))

/-- Proof abbreviation: the smoothed (mean, covariance) pairs, scan outputs
followed by the boundary value. -/
def s_pairs {S E U : Nat} (params : ParamsNLGSSM S E U)
    (logpdf : Vec E → Mat E E → Vec E → ℚ) (emissions : List (Vec E))
    (inputs : Option (List (Vec U))) : List (Vec S × Mat S S) :=
  (scanr (diag_step (smooth_step params (resolve_inputs inputs emissions.length)))
      (s_init params logpdf emissions inputs) (s_args params logpdf emissions inputs)).2
    ++ [s_init params logpdf emissions inputs]

theorem smoother_fields {S E U : Nat} (params : ParamsNLGSSM S E U)
    (logpdf : Vec E → Mat E E → Vec E → ℚ) (emissions : List (Vec E))
    (inputs : Option (List (Vec U))) :
    (extended_kalman_smoother params logpdf emissions none inputs).filtered_means
        = s_fms params logpdf emissions inputs ∧
    (extended_kalman_smoother params logpdf emissions none inputs).filtered_covariances
        = s_fcs params logpdf emissions inputs ∧
    (extended_kalman_smoother params logpdf emissions none inputs).smoothed_means
        = (s_pairs params logpdf emissions inputs).map (·.1) ∧
    (extended_kalman_smoother params logpdf emissions none inputs).smoothed_covariances
        = (s_pairs params logpdf emissions inputs).map (·.2) := by
  refine ⟨?_, ?_, ?_, ?_⟩ <;>
    simp [extended_kalman_smoother, s_pairs, s_init, s_args, s_fms, s_fcs,
      ekf_default_filtered_means, ekf_default_filtered_covs, List.map_append]

theorem s_pairs_length {S E U : Nat} (params : ParamsNLGSSM S E U)
    (logpdf : Vec E → Mat E E → Vec E → ℚ) (emissions : List (Vec E))
    (inputs : Option (List (Vec U))) :
    (s_pairs params logpdf emissions inputs).length = (emissions.length - 1) + 1 := by
  simp [s_pairs, scanr_length, s_args]

/-- Claim C3: for a nonempty observation sequence, the smoothed mean and
covariance at the final timestep are exactly the filtered mean and
covariance there, taken from the filtered posterior (the boundary value is
appended unchanged after the backward scan). -/
theorem C3_smoother_boundary {S E U : Nat} (params : ParamsNLGSSM S E U)
    (logpdf : Vec E → Mat E E → Vec E → ℚ) (emissions : List (Vec E))
    (inputs : Option (List (Vec U))) (hne : emissions ≠ []) :
    (extended_kalman_smoother params logpdf emissions none inputs).smoothed_means.getLast?
      = ((extended_kalman_filter params logpdf emissions inputs 1
          default_output_fields).filtered_means.getD []).getLast? ∧
    (extended_kalman_smoother params logpdf emissions none
        inputs).smoothed_covariances.getLast?
      = ((extended_kalman_filter params logpdf emissions inputs 1
          default_output_fields).filtered_covariances.getD []).getLast? := by
  obtain ⟨h1, h2, h3, h4⟩ := smoother_fields params logpdf emissions inputs
  have hfms_len : (s_fms params logpdf emissions inputs).length = emissions.length := by
    simp [s_fms, ekf_scan_length]
  have hfcs_len : (s_fcs params logpdf emissions inputs).length = emissions.length := by
    simp [s_fcs, ekf_scan_length]
  have hfms_ne : s_fms params logpdf emissions inputs ≠ [] := by
    intro hc
    rw [hc] at hfms_len
    exact hne (List.length_eq_zero.mp hfms_len.symm)
  have hfcs_ne : s_fcs params logpdf emissions inputs ≠ [] := by
    intro hc
    rw [hc] at hfcs_len
    exact hne (List.length_eq_zero.mp hfcs_len.symm)
  obtain ⟨a, ha⟩ := Option.isSome_iff_exists.mp (List.getLast?_isSome.mpr hfms_ne)
  obtain ⟨b, hb⟩ := Option.isSome_iff_exists.mp (List.getLast?_isSome.mpr hfcs_ne)
  constructor
  · rw [h3, ekf_default_filtered_means]
    simp only [Option.getD_some, s_pairs, List.map_append, List.map_cons, List.map_nil,
      List.getLast?_concat, s_init]
    show some ((s_fms params logpdf emissions inputs).getLast?.getD 0)
      = (s_fms params logpdf emissions inputs).getLast?
    rw [ha]
    rfl
  · rw [h4, ekf_default_filtered_covs]
    simp only [Option.getD_some, s_pairs, List.map_append, List.map_cons, List.map_nil,
      List.getLast?_concat, s_init]
    show some ((s_fcs params logpdf emissions inputs).getLast?.getD 0)
      = (s_fcs params logpdf emissions inputs).getLast?
    rw [hb]
    rfl

theorem C3_smoother_boundary_witness :
    exampleEmissions ≠ [] ∧
    ((extended_kalman_smoother exampleParams zlp exampleEmissions none
        none).smoothed_means.getLast?
      = ((extended_kalman_filter exampleParams zlp exampleEmissions none 1
          default_output_fields).filtered_means.getD []).getLast? ∧
     (extended_kalman_smoother exampleParams zlp exampleEmissions none
        none).smoothed_covariances.getLast?
      = ((extended_kalman_filter exampleParams zlp exampleEmissions none 1
          default_output_fields).filtered_covariances.getD []).getLast?) :=
  ⟨by decide, C3_smoother_boundary exampleParams zlp exampleEmissions none (by decide)⟩

/-- Claim C4: for every timestep `t` with `t+1 < T`, the smoother computes,
with `F` the dynamics Jacobian at the filtered mean, the one-step prediction
`m_pred = f(filtered_mean_t, u_t)` and `S_pred = Q_t + F fc Fᵀ`, the gain
`G = (S_pred⁻¹ F fc)ᵀ` through a solve, and returns
`smoothed_mean_t = filtered_mean_t + G (smoothed_mean_{t+1} − m_pred)` and
`smoothed_cov_t = filtered_cov_t + G (smoothed_cov_{t+1} − S_pred) Gᵀ`.
The equation binders name the intermediate quantities. -/
theorem C4_smoother_recursion {S E U : Nat} (params : ParamsNLGSSM S E U)
    (logpdf : Vec E → Mat E E → Vec E → ℚ) (emissions : List (Vec E))
    (inputs : Option (List (Vec U))) (t : Nat)
    (u : Vec U) (fm : Vec S) (fc F_x : Mat S S) (m_pred : Vec S) (S_pred G : Mat S S)
    (ht : t + 1 < emissions.length)
    (hu : u = seq_get (resolve_inputs inputs emissions.length) t)
    (hfm : fm = (extended_kalman_smoother params logpdf emissions none
        inputs).filtered_means.getD t 0)
    (hfc : fc = (extended_kalman_smoother params logpdf emissions none
        inputs).filtered_covariances.getD t 0)
    (hF : F_x = params.dynamics_jacobian fm u)
    (hm : m_pred = params.dynamics_function fm u)
    (hS : S_pred = get_params params.dynamics_covariance t + F_x * fc * F_xᵀ)
    (hG : G = (psd_solve S_pred (F_x * fc))ᵀ) :
    (extended_kalman_smoother params logpdf emissions none inputs).smoothed_means.getD t 0
      = fm + G.mulVec ((extended_kalman_smoother params logpdf emissions none
          inputs).smoothed_means.getD (t + 1) 0 - m_pred) ∧
    (extended_kalman_smoother params logpdf emissions none
        inputs).smoothed_covariances.getD t 0
      = fc + G * ((extended_kalman_smoother params logpdf emissions none
          inputs).smoothed_covariances.getD (t + 1) 0 - S_pred) * Gᵀ := by
  subst hG
  subst hS
  subst hm
  subst hF
  subst hfc
  subst hfm
  subst hu
  obtain ⟨h1, h2, h3, h4⟩ := smoother_fields params logpdf emissions inputs
  rw [h1, h2, h3, h4]
  have hargs_len : (s_args params logpdf emissions inputs).length
      = emissions.length - 1 := by
    simp [s_args]
  have hts : t < (s_args params logpdf emissions inputs).length := by omega
  have hplen : (s_pairs params logpdf emissions inputs).length
      = (emissions.length - 1) + 1 := s_pairs_length params logpdf emissions inputs
  have ht1 : t < (s_pairs params logpdf emissions inputs).length := by omega
  have ht2 : t + 1 < (s_pairs params logpdf emissions inputs).length := by omega
  have hm1 : ((s_pairs params logpdf emissions inputs).map (·.1)).getD t 0
      = ((s_pairs params logpdf emissions inputs).getD t (0, 0)).1 := by
    have := getD_map_of_lt (fun p : Vec S × Mat S S => p.1)
      (s_pairs params logpdf emissions inputs) t (0, 0) ht1
    simpa using this
  have hm2 : ((s_pairs params logpdf emissions inputs).map (·.1)).getD (t + 1) 0
      = ((s_pairs params logpdf emissions inputs).getD (t + 1) (0, 0)).1 := by
    have := getD_map_of_lt (fun p : Vec S × Mat S S => p.1)
      (s_pairs params logpdf emissions inputs) (t + 1) (0, 0) ht2
    simpa using this
  have hv1 : ((s_pairs params logpdf emissions inputs).map (·.2)).getD t 0
      = ((s_pairs params logpdf emissions inputs).getD t (0, 0)).2 := by
    have := getD_map_of_lt (fun p : Vec S × Mat S S => p.2)
      (s_pairs params logpdf emissions inputs) t (0, 0) ht1
    simpa using this
  have hv2 : ((s_pairs params logpdf emissions inputs).map (·.2)).getD (t + 1) 0
      = ((s_pairs params logpdf emissions inputs).getD (t + 1) (0, 0)).2 := by
    have := getD_map_of_lt (fun p : Vec S × Mat S S => p.2)
      (s_pairs params logpdf emissions inputs) (t + 1) (0, 0) ht2
    simpa using this
  have hargt : (s_args params logpdf emissions inputs).getD t (0, 0, 0)
      = (t, (s_fms params logpdf emissions inputs).getD t 0,
          (s_fcs params logpdf emissions inputs).getD t 0) := by
    simp only [s_args]
    exact getD_range_map _ _ _ _ (by omega)
  have hkey := scanr_diag_getD
    (smooth_step params (resolve_inputs inputs emissions.length))
    (s_init params logpdf emissions inputs) (s_args params logpdf emissions inputs)
    t ((0 : Vec S), (0 : Mat S S)) (0, 0, 0) hts
  rw [hargt] at hkey
  have hkey2 : (s_pairs params logpdf emissions inputs).getD t (0, 0)
      = smooth_step params (resolve_inputs inputs emissions.length)
          ((s_pairs params logpdf emissions inputs).getD (t + 1) (0, 0))
          (t, (s_fms params logpdf emissions inputs).getD t 0,
            (s_fcs params logpdf emissions inputs).getD t 0) := hkey
  constructor
  · rw [hm1, hm2, hkey2]
    rfl
  · rw [hv1, hv2, hkey2]
    rfl

/-- The smoothed posterior of the witness scenario. -/
def w4_post : PosteriorGSSMSmoothed 1 :=
  extended_kalman_smoother exampleParams zlp exampleEmissions none none

/-- Witness components for the smoother recursion at `t = 0`. -/
def w4_u : Vec 1 := seq_get (resolve_inputs none exampleEmissions.length) 0

/-- Witness filtered mean at `t = 0`. -/
def w4_fm : Vec 1 := w4_post.filtered_means.getD 0 0

/-- Witness filtered covariance at `t = 0`. -/
def w4_fc : Mat 1 1 := w4_post.filtered_covariances.getD 0 0

/-- Witness dynamics Jacobian at the filtered mean. -/
def w4_F : Mat 1 1 := exampleParams.dynamics_jacobian w4_fm w4_u

/-- Witness one-step predicted mean. -/
def w4_mpred : Vec 1 := exampleParams.dynamics_function w4_fm w4_u

/-- Witness one-step predicted covariance. -/
def w4_S : Mat 1 1 := get_params exampleParams.dynamics_covariance 0 + w4_F * w4_fc * w4_Fᵀ

/-- Witness smoother gain. -/
def w4_G : Mat 1 1 := (psd_solve w4_S (w4_F * w4_fc))ᵀ

theorem C4_smoother_recursion_witness :
    0 + 1 < exampleEmissions.length ∧
    (w4_post.smoothed_means.getD 0 0
        = w4_fm + w4_G.mulVec (w4_post.smoothed_means.getD (0 + 1) 0 - w4_mpred) ∧
     w4_post.smoothed_covariances.getD 0 0
        = w4_fc + w4_G * (w4_post.smoothed_covariances.getD (0 + 1) 0 - w4_S) * w4_Gᵀ) :=
  ⟨by decide,
    C4_smoother_recursion exampleParams zlp exampleEmissions none 0 w4_u w4_fm w4_fc
      w4_F w4_mpred w4_S w4_G (by decide) rfl rfl rfl rfl rfl rfl rfl⟩

/-! ### Covariance symmetry (C6) -/

/-- Symmetry of every matrix a time-indexed parameter can yield. -/
def TPSymm {n : Nat} (tp : TimeParam n) : Prop :=
  ∀ t, (get_params tp t)ᵀ = get_params tp t

theorem sandwich_transpose {n m : Nat} (B : Mat n m) (A : Mat m m) (hA : Aᵀ = A) :
    (B * A * Bᵀ)ᵀ = B * A * Bᵀ := by
  simp [Matrix.transpose_mul, Matrix.transpose_transpose, hA, Matrix.mul_assoc]

theorem condition_on_snd_symm {S E U : Nat} (m : Vec S) (P : Mat S S)
    (h : Vec S → Vec U → Vec E) (H : Vec S → Vec U → Mat E S)
    (R : Mat E E) (u : Vec U) (y : Vec E) (n : Nat) :
    ((condition_on m P h H R u y n).2)ᵀ = (condition_on m P h H R u y n).2 :=
  symmetrize_transpose _

theorem getD_pred {α : Type} (P : α → Prop) (l : List α) (t : Nat) (d : α)
    (hl : ∀ a ∈ l, P a) (hd : P d) : P (l.getD t d) := by
  induction l generalizing t with
  | nil => exact hd
  | cons x xs ih =>
    cases t with
    | zero => exact hl x (by simp)
    | succ t => exact ih t (fun a ha => hl a (by simp [ha]))

theorem getLastD_pred {α : Type} (P : α → Prop) (l : List α) (d : α)
    (hl : ∀ a ∈ l, P a) (hd : P d) : P (l.getLast?.getD d) := by
  cases hE : l.getLast? with
  | none => exact hd
  | some a => exact hl a (List.mem_of_mem_getLast? hE)

theorem predict_snd_symm {S U : Nat} (m : Vec S) (P : Mat S S)
    (f : Vec S → Vec U → Vec S) (F : Vec S → Vec U → Mat S S) (Q : Mat S S) (u : Vec U)
    (hP : Pᵀ = P) (hQ : Qᵀ = Q) :
    ((predict m P f F Q u).2)ᵀ = (predict m P f F Q u).2 := by
  show (F m u * P * (F m u)ᵀ + Q)ᵀ = F m u * P * (F m u)ᵀ + Q
  rw [Matrix.transpose_add, sandwich_transpose _ _ hP, hQ]

theorem ekf_scan_cov_symm {S E U : Nat} (params : ParamsNLGSSM S E U)
    (logpdf : Vec E → Mat E E → Vec E → ℚ) (emissions : List (Vec E))
    (inputs : Option (List (Vec U))) (n : Nat)
    (hS0 : params.initial_covarianceᵀ = params.initial_covariance)
    (hQ : TPSymm params.dynamics_covariance) :
    ∀ o ∈ (ekf_scan params logpdf emissions inputs n).2,
        o.filtered_covᵀ = o.filtered_cov ∧ o.pred_covᵀ = o.pred_cov := by
  have key := scanl_inv
    (filter_step params logpdf (resolve_inputs inputs emissions.length) emissions n)
    (fun c => (c.2.2)ᵀ = c.2.2)
    (fun o => o.filtered_covᵀ = o.filtered_cov ∧ o.pred_covᵀ = o.pred_cov)
    (0, params.initial_mean, params.initial_covariance) (List.range emissions.length)
    hS0 ?_
  · exact key.2
  · intro c t _ hc
    have hfc := condition_on_snd_symm c.2.1 c.2.2 params.emission_function
      params.emission_jacobian (get_params params.emission_covariance t)
      (seq_get (resolve_inputs inputs emissions.length) t) (seq_get emissions t) n
    have hpred := predict_snd_symm
      (condition_on c.2.1 c.2.2 params.emission_function params.emission_jacobian
        (get_params params.emission_covariance t)
        (seq_get (resolve_inputs inputs emissions.length) t) (seq_get emissions t) n).1
      (condition_on c.2.1 c.2.2 params.emission_function params.emission_jacobian
        (get_params params.emission_covariance t)
        (seq_get (resolve_inputs inputs emissions.length) t) (seq_get emissions t) n).2
      params.dynamics_function params.dynamics_jacobian
      (get_params params.dynamics_covariance t)
      (seq_get (resolve_inputs inputs emissions.length) t) hfc (hQ t)
    exact ⟨hpred, hfc, hpred⟩

theorem rts_update_transpose {n : Nat} (fc M G Sp : Mat n n) (hfc : fcᵀ = fc)
    (hM : Mᵀ = M) (hSp : Spᵀ = Sp) :
    (fc + G * (M - Sp) * Gᵀ)ᵀ = fc + G * (M - Sp) * Gᵀ := by
  have hd : (M - Sp)ᵀ = M - Sp := by rw [Matrix.transpose_sub, hM, hSp]
  rw [Matrix.transpose_add, hfc, sandwich_transpose _ _ hd]

theorem smooth_step_snd_symm {S E U : Nat} (params : ParamsNLGSSM S E U)
    (inputs : List (Vec U)) (c : Vec S × Mat S S) (x : Nat × Vec S × Mat S S)
    (hQ : TPSymm params.dynamics_covariance)
    (hc : (c.2)ᵀ = c.2) (hfc : (x.2.2)ᵀ = x.2.2) :
    ((smooth_step params inputs c x).2)ᵀ = (smooth_step params inputs c x).2 := by
  have hSp : (get_params params.dynamics_covariance x.1
      + params.dynamics_jacobian x.2.1 (seq_get inputs x.1) * x.2.2
        * (params.dynamics_jacobian x.2.1 (seq_get inputs x.1))ᵀ)ᵀ
      = get_params params.dynamics_covariance x.1
        + params.dynamics_jacobian x.2.1 (seq_get inputs x.1) * x.2.2
          * (params.dynamics_jacobian x.2.1 (seq_get inputs x.1))ᵀ := by
    rw [Matrix.transpose_add, sandwich_transpose _ _ hfc, hQ x.1]
  exact rts_update_transpose x.2.2 c.2 _ _ hfc hc hSp

/-- Claim C6: assuming the supplied `Q`, `R` and `S0` covariances are
symmetric, every covariance the three drivers produce — the per-step
predicted and filtered covariances of the filter (for any relinearization
count) and the smoothed covariances of the smoother — equals its own
transpose in exact arithmetic; moreover the conditioning routine forces
exact symmetry on its returned covariance unconditionally, by averaging the
Joseph-form result with its transpose. -/
theorem C6_covariance_symmetry {S E U : Nat} (params : ParamsNLGSSM S E U)
    (logpdf : Vec E → Mat E E → Vec E → ℚ) (emissions : List (Vec E))
    (inputs : Option (List (Vec U))) (n : Nat)
    (hS0 : params.initial_covarianceᵀ = params.initial_covariance)
    (hQ : TPSymm params.dynamics_covariance)
    (hR : TPSymm params.emission_covariance) :
    (∀ C ∈ (ekf_scan params logpdf emissions inputs n).2.map (·.pred_cov), Cᵀ = C) ∧
    (∀ C ∈ (ekf_scan params logpdf emissions inputs n).2.map (·.filtered_cov), Cᵀ = C) ∧
    (∀ C ∈ (extended_kalman_smoother params logpdf emissions none
        inputs).smoothed_covariances, Cᵀ = C) ∧
    (∀ (m : Vec S) (P : Mat S S) (h : Vec S → Vec U → Vec E) (H : Vec S → Vec U → Mat E S)
        (R' : Mat E E) (u : Vec U) (y : Vec E) (k : Nat),
      ((condition_on m P h H R' u y k).2)ᵀ = (condition_on m P h H R' u y k).2) := by
  have hout := ekf_scan_cov_symm params logpdf emissions inputs n hS0 hQ
  have hout1 := ekf_scan_cov_symm params logpdf emissions inputs 1 hS0 hQ
  refine ⟨?_, ?_, ?_, ?_⟩
  · intro C hC
    obtain ⟨o, ho, rfl⟩ := List.mem_map.mp hC
    exact (hout o ho).2
  · intro C hC
    obtain ⟨o, ho, rfl⟩ := List.mem_map.mp hC
    exact (hout o ho).1
  · have hfcs_sym : ∀ C ∈ s_fcs params logpdf emissions inputs, Cᵀ = C := by
      intro C hC
      obtain ⟨o, ho, rfl⟩ := List.mem_map.mp hC
      exact (hout1 o ho).1
    have hinit : ((s_init params logpdf emissions inputs).2)ᵀ
        = (s_init params logpdf emissions inputs).2 :=
      getLastD_pred (fun A => Aᵀ = A) _ 0 hfcs_sym Matrix.transpose_zero
    have hargs_sym : ∀ x ∈ s_args params logpdf emissions inputs, (x.2.2)ᵀ = x.2.2 := by
      intro x hx
      simp only [s_args, List.mem_map, List.mem_range] at hx
      obtain ⟨s, hs, rfl⟩ := hx
      exact getD_pred (fun A => Aᵀ = A) _ s 0 hfcs_sym Matrix.transpose_zero
    have hscan := scanr_inv
      (diag_step (smooth_step params (resolve_inputs inputs emissions.length)))
      (fun c => (c.2)ᵀ = c.2) (fun yy => (yy.2)ᵀ = yy.2)
      (s_init params logpdf emissions inputs) (s_args params logpdf emissions inputs)
      hinit
      (fun c x hx hc =>
        ⟨smooth_step_snd_symm params (resolve_inputs inputs emissions.length) c x hQ hc
            (hargs_sym x hx),
         smooth_step_snd_symm params (resolve_inputs inputs emissions.length) c x hQ hc
            (hargs_sym x hx)⟩)
    intro C hC
    obtain ⟨h1, h2, h3, h4⟩ := smoother_fields params logpdf emissions inputs
    rw [h4] at hC
    obtain ⟨p, hp, rfl⟩ := List.mem_map.mp hC
    simp only [s_pairs, List.mem_append, List.mem_singleton] at hp
    rcases hp with hp | hp
    · exact hscan.2 p hp
    · rw [hp]
      exact hinit
  · intro m P h H R' u y k
    exact condition_on_snd_symm m P h H R' u y k

theorem C6_covariance_symmetry_witness :
    ((exampleParams.initial_covarianceᵀ = exampleParams.initial_covariance ∧
      TPSymm exampleParams.dynamics_covariance ∧
      TPSymm exampleParams.emission_covariance)) ∧
    ((∀ C ∈ (ekf_scan exampleParams zlp exampleEmissions none 1).2.map (·.pred_cov),
        Cᵀ = C) ∧
     (∀ C ∈ (ekf_scan exampleParams zlp exampleEmissions none 1).2.map (·.filtered_cov),
        Cᵀ = C) ∧
     (∀ C ∈ (extended_kalman_smoother exampleParams zlp exampleEmissions none
        none).smoothed_covariances, Cᵀ = C) ∧
     (∀ (m : Vec 1) (P : Mat 1 1) (h : Vec 1 → Vec 1 → Vec 1) (H : Vec 1 → Vec 1 → Mat 1 1)
        (R' : Mat 1 1) (u : Vec 1) (y : Vec 1) (k : Nat),
      ((condition_on m P h H R' u y k).2)ᵀ = (condition_on m P h H R' u y k).2)) :=
  ⟨⟨rfl, fun _ => rfl, fun _ => rfl⟩,
    C6_covariance_symmetry exampleParams zlp exampleEmissions none 1 rfl
      (fun _ => rfl) (fun _ => rfl)⟩

/-! ### Iterated relinearization on the 1-D linear scenario (C5) -/

/-- Scalar form of one conditioning round for the 1-D identity-emission
model: innovation `s = r + p + 1e-3`, gain `k = p / s`, Joseph covariance
`(1-k) p (1-k) + k r k`, mean `m + k (y - m)`.  Used to evaluate the
iterated update on the concrete scenario. -/
def cond1 (r y : ℚ) : ℚ × ℚ → ℚ × ℚ := fun mp =>
  let s := r + mp.2 + 1/1000
  let k := mp.2 * s⁻¹
  (mp.1 + k * (y - mp.1), (1 - k) * mp.2 * (1 - k) + k * r * k)

theorem condition_step_1d (r y m p : ℚ) (u : Vec 1) :
    condition_step lin_h lin_H (cmat r) u (cvec y) (cvec m, cmat p)
      = (cvec (cond1 r y (m, p)).1, cmat (cond1 r y (m, p)).2) := by
  unfold condition_step cond1
  refine Prod.ext ?_ ?_
  · funext i
    simp [lin_h, lin_H, cvec, cmat, Matrix.mulVec, dotProduct, Matrix.mul_apply,
      Fin.sum_univ_one, matInv, Matrix.det_fin_one, Matrix.adjugate_fin_one,
      Matrix.one_apply, Matrix.transpose_apply, Pi.add_apply, Pi.sub_apply,
      Matrix.smul_apply, smul_eq_mul, Matrix.sub_apply, Matrix.add_apply,
      Subsingleton.elim i 0]
    exact Or.inl (mul_comm _ _)
  · funext i j
    simp [lin_h, lin_H, cvec, cmat, Matrix.mulVec, dotProduct, Matrix.mul_apply,
      Fin.sum_univ_one, matInv, Matrix.det_fin_one, Matrix.adjugate_fin_one,
      Matrix.one_apply, Matrix.transpose_apply, Pi.add_apply, Pi.sub_apply,
      Matrix.smul_apply, smul_eq_mul, Matrix.sub_apply, Matrix.add_apply,
      Subsingleton.elim i 0, Subsingleton.elim j 0]
    ring

theorem condition_iter_1d (r y m p : ℚ) (u : Vec 1) (n : Nat) :
    (condition_step lin_h lin_H (cmat r) u (cvec y))^[n] (cvec m, cmat p)
      = (cvec ((cond1 r y)^[n] (m, p)).1, cmat ((cond1 r y)^[n] (m, p)).2) := by
  induction n with
  | zero => rfl
  | succ n ih =>
    rw [Function.iterate_succ_apply', Function.iterate_succ_apply', ih,
      condition_step_1d]

theorem example_filtered_head (n : Nat) :
    ((ekf_scan exampleParams zlp exampleEmissions none n).2.getD 0 StepOut.dflt).filtered_mean
      = cvec (((cond1 1 (1/2))^[n] (0, 1)).1) := by
  rw [ekf_scan_getD _ _ _ _ _ 0 (by decide)]
  show (condition_on (cvec 0) (cmat 1) lin_h lin_H (cmat 1)
      (seq_get (resolve_inputs none exampleEmissions.length) 0) (cvec (1/2)) n).1
    = cvec (((cond1 1 (1/2))^[n] (0, 1)).1)
  show ((condition_step lin_h lin_H (cmat 1)
      (seq_get (resolve_inputs none exampleEmissions.length) 0) (cvec (1/2)))^[n]
      (cvec 0, cmat 1)).1
    = cvec (((cond1 1 (1/2))^[n] (0, 1)).1)
  rw [condition_iter_1d]

theorem C5_counterexample_relinearization_count :
    (extended_kalman_filter exampleParams zlp exampleEmissions none 1
        default_output_fields).filtered_means
      ≠ (extended_kalman_filter exampleParams zlp exampleEmissions none 5
        default_output_fields).filtered_means := by
  rw [ekf_default_filtered_means, ekf_default_filtered_means]
  intro hq
  have hlists := Option.some.inj hq
  have hlen1 : (ekf_scan exampleParams zlp exampleEmissions none 1).2.length = 3 := by
    rw [ekf_scan_length]
    rfl
  have hlen5 : (ekf_scan exampleParams zlp exampleEmissions none 5).2.length = 3 := by
    rw [ekf_scan_length]
    rfl
  have e1 : ((ekf_scan exampleParams zlp exampleEmissions none 1).2.map
        (·.filtered_mean)).getD 0 0
      = ((ekf_scan exampleParams zlp exampleEmissions none 1).2.getD 0
          StepOut.dflt).filtered_mean := by
    have := getD_map_of_lt (fun o : StepOut 1 => o.filtered_mean)
      (ekf_scan exampleParams zlp exampleEmissions none 1).2 0 StepOut.dflt
      (by rw [hlen1]; omega)
    simpa [StepOut.dflt] using this
  have e5 : ((ekf_scan exampleParams zlp exampleEmissions none 5).2.map
        (·.filtered_mean)).getD 0 0
      = ((ekf_scan exampleParams zlp exampleEmissions none 5).2.getD 0
          StepOut.dflt).filtered_mean := by
    have := getD_map_of_lt (fun o : StepOut 1 => o.filtered_mean)
      (ekf_scan exampleParams zlp exampleEmissions none 5).2 0 StepOut.dflt
      (by rw [hlen5]; omega)
    simpa [StepOut.dflt] using this
  have h0 : ((ekf_scan exampleParams zlp exampleEmissions none 1).2.map
        (·.filtered_mean)).getD 0 0
      = ((ekf_scan exampleParams zlp exampleEmissions none 5).2.map
        (·.filtered_mean)).getD 0 0 := by
    rw [hlists]
  rw [e1, e5, example_filtered_head 1, example_filtered_head 5] at h0
  have hs := congrFun h0 0
  simp only [cvec] at hs
  have h1 : (cond1 1 (1/2))^[1] (0, 1) = cond1 1 (1/2) (0, 1) := rfl
  have h5 : (cond1 1 (1/2))^[5] (0, 1)
      = cond1 1 (1/2) (cond1 1 (1/2) (cond1 1 (1/2) (cond1 1 (1/2)
          (cond1 1 (1/2) (0, 1))))) := rfl
  rw [h1, h5] at hs
  norm_num [cond1] at hs

/-- Claim C5 (amended): increasing `num_relinearizations` from 1 to 5 does
change the filtered outputs even for this linear model, because each round
re-conditions on the same observation around the updated posterior mean and
covariance; on the 1-D scenario `f(x)=0.9x`, `h(x)=x`, `Q=0.1`, `R=1`,
`m0=0`, `S0=1` with observations `[0.5, -0.2, 0.8]`, the first filtered mean
is `500/2001` after one round but the 5-fold iterate of the scalar update —
a different value — after five rounds. -/
theorem C5_amended_iterated_update :
    ((ekf_scan exampleParams zlp exampleEmissions none 1).2.getD 0
        StepOut.dflt).filtered_mean = cvec (500/2001) ∧
    ((ekf_scan exampleParams zlp exampleEmissions none 5).2.getD 0
        StepOut.dflt).filtered_mean = cvec (((cond1 1 (1/2))^[5] (0, 1)).1) ∧
    ((cond1 1 (1/2))^[5] (0, 1)).1 ≠ 500/2001 := by
  refine ⟨?_, example_filtered_head 5, ?_⟩
  · rw [example_filtered_head 1]
    have h1 : ((cond1 1 (1/2))^[1] (0, 1)).1 = 500/2001 := by
      have : (cond1 1 (1/2))^[1] (0, 1) = cond1 1 (1/2) (0, 1) := rfl
      rw [this]
      norm_num [cond1]
    rw [h1]
  · have h5 : (cond1 1 (1/2))^[5] (0, 1)
        = cond1 1 (1/2) (cond1 1 (1/2) (cond1 1 (1/2) (cond1 1 (1/2)
            (cond1 1 (1/2) (0, 1))))) := rfl
    rw [h5]
    norm_num [cond1]

/-! ### Posterior sampler structure (C7) -/

/-- Proof abbreviation: the sampler's initial draw (last state). -/
def p_last {S E U : Nat} {K : Type} (split2 : K → K × K)
    (sample : Vec S → Mat S S → K → Vec S) (key : K) (params : ParamsNLGSSM S E U)
    (logpdf : Vec E → Mat E E → Vec E → ℚ) (emissions : List (Vec E))
    (inputs : Option (List (Vec U))) : Vec S :=
  sample ((s_fms params logpdf emissions inputs).getLast?.getD 0)
    ((s_fcs params logpdf emissions inputs).getLast?.getD 0) (split2 key).2

/-- Proof abbreviation: the zipped per-timestep arguments of the sampler's
backward scan. -/
def p_args {S E U : Nat} {K : Type} (split2 : K → K × K) (splitN : K → Nat → Nat → K)
    (key : K) (params : ParamsNLGSSM S E U) (logpdf : Vec E → Mat E E → Vec E → ℚ)
    (emissions : List (Vec E)) (inputs : Option (List (Vec U))) :
    List (K × Vec S × Mat S S × Nat) :=
  (List.range (emissions.length - 1)).map
    (fun t => (splitN (split2 key).1 (emissions.length - 1) t,
      (s_fms params logpdf emissions inputs).getD t 0,
      (s_fcs params logpdf emissions inputs).getD t 0, t))

theorem sampler_eq {S E U : Nat} {K : Type} (split2 : K → K × K)
    (splitN : K → Nat → Nat → K) (sample : Vec S → Mat S S → K → Vec S) (key : K)
    (params : ParamsNLGSSM S E U) (logpdf : Vec E → Mat E E → Vec E → ℚ)
    (emissions : List (Vec E)) (inputs : Option (List (Vec U))) :
    extended_kalman_posterior_sample split2 splitN sample key params logpdf emissions inputs
      = (scanr (diag_step (sample_step params sample
            (resolve_inputs inputs emissions.length)))
          (p_last split2 sample key params logpdf emissions inputs)
          (p_args split2 splitN key params logpdf emissions inputs)).2
        ++ [p_last split2 sample key params logpdf emissions inputs] := by
  simp only [extended_kalman_posterior_sample, p_last, p_args, s_fms, s_fcs,
    ekf_default_filtered_means, ekf_default_filtered_covs, Option.getD_some]

/-- Claim C7: the posterior sampler draws the last state from the Gaussian
with the last filtered mean and covariance using the second key of the
initial split; then, for `t` from `T-2` down to `0`, it conditions the
filtered estimate at `t` on the already-drawn state at `t+1` through the
same conditioning routine as the filter, with the dynamics function,
Jacobian and `Q_t` in the emission slots (one relinearization round), draws
with the `t`-th of the `T-1` per-step keys split from the seed, and the `T`
draws are returned indexed by increasing time. -/
theorem C7_posterior_sampler_structure {S E U : Nat} {K : Type} (split2 : K → K × K)
    (splitN : K → Nat → Nat → K) (sample : Vec S → Mat S S → K → Vec S) (key : K)
    (params : ParamsNLGSSM S E U) (logpdf : Vec E → Mat E E → Vec E → ℚ)
    (emissions : List (Vec E)) (inputs : Option (List (Vec U)))
    (hne : emissions ≠ []) :
    (extended_kalman_posterior_sample split2 splitN sample key params logpdf emissions
        inputs).length = emissions.length ∧
    (extended_kalman_posterior_sample split2 splitN sample key params logpdf emissions
        inputs).getD (emissions.length - 1) 0
      = sample ((s_fms params logpdf emissions inputs).getLast?.getD 0)
          ((s_fcs params logpdf emissions inputs).getLast?.getD 0) (split2 key).2 ∧
    (∀ t, t + 1 < emissions.length →
      (extended_kalman_posterior_sample split2 splitN sample key params logpdf emissions
          inputs).getD t 0
        = sample
            (condition_on ((s_fms params logpdf emissions inputs).getD t 0)
              ((s_fcs params logpdf emissions inputs).getD t 0)
              params.dynamics_function params.dynamics_jacobian
              (get_params params.dynamics_covariance t)
              (seq_get (resolve_inputs inputs emissions.length) t)
              ((extended_kalman_posterior_sample split2 splitN sample key params logpdf
                  emissions inputs).getD (t + 1) 0) 1).1
            (condition_on ((s_fms params logpdf emissions inputs).getD t 0)
              ((s_fcs params logpdf emissions inputs).getD t 0)
              params.dynamics_function params.dynamics_jacobian
              (get_params params.dynamics_covariance t)
              (seq_get (resolve_inputs inputs emissions.length) t)
              ((extended_kalman_posterior_sample split2 splitN sample key params logpdf
                  emissions inputs).getD (t + 1) 0) 1).2
            (splitN (split2 key).1 (emissions.length - 1) t)) := by
  have hTpos : 0 < emissions.length := List.length_pos.mpr hne
  have hargs_len : (p_args split2 splitN key params logpdf emissions inputs).length
      = emissions.length - 1 := by
    simp [p_args]
  have hys_len : (scanr (diag_step (sample_step params sample
        (resolve_inputs inputs emissions.length)))
      (p_last split2 sample key params logpdf emissions inputs)
      (p_args split2 splitN key params logpdf emissions inputs)).2.length
      = emissions.length - 1 := by
    rw [scanr_length, hargs_len]
  refine ⟨?_, ?_, ?_⟩
  · rw [sampler_eq]
    simp [hys_len]
    omega
  · rw [sampler_eq, List.getD_append_right _ _ _ _ (by omega)]
    rw [hys_len]
    simp [p_last]
  · intro t ht
    rw [sampler_eq]
    have hts : t < (p_args split2 splitN key params logpdf emissions inputs).length := by
      omega
    have hkey := scanr_diag_getD
      (sample_step params sample (resolve_inputs inputs emissions.length))
      (p_last split2 sample key params logpdf emissions inputs)
      (p_args split2 splitN key params logpdf emissions inputs)
      t (0 : Vec S)
      (splitN (split2 key).1 (emissions.length - 1) 0, (0 : Vec S), (0 : Mat S S), 0)
      hts
    have hargt : (p_args split2 splitN key params logpdf emissions inputs).getD t
        (splitN (split2 key).1 (emissions.length - 1) 0, (0 : Vec S), (0 : Mat S S), 0)
        = (splitN (split2 key).1 (emissions.length - 1) t,
            (s_fms params logpdf emissions inputs).getD t 0,
            (s_fcs params logpdf emissions inputs).getD t 0, t) := by
      simp only [p_args]
      exact getD_range_map _ _ _ _ (by omega)
    rw [hargt] at hkey
    rw [hkey]
    rfl

/-- Concrete stand-ins for the external PRNG capabilities of the C7 witness. -/
def w7_split2 : Nat → Nat × Nat := fun k => (k + 1, k + 2)

/-- Concrete per-step key derivation for the C7 witness. -/
def w7_splitN : Nat → Nat → Nat → Nat := fun k n t => k * 1000 + n * 10 + t

/-- Concrete stand-in for the external Gaussian sampler of the C7 witness. -/
def w7_sample : Vec 1 → Mat 1 1 → Nat → Vec 1 := fun m _ _ => m

theorem C7_posterior_sampler_structure_witness :
    exampleEmissions ≠ [] ∧
    ((extended_kalman_posterior_sample w7_split2 w7_splitN w7_sample 0 exampleParams zlp
        exampleEmissions none).length = exampleEmissions.length ∧
     (extended_kalman_posterior_sample w7_split2 w7_splitN w7_sample 0 exampleParams zlp
        exampleEmissions none).getD (exampleEmissions.length - 1) 0
      = w7_sample ((s_fms exampleParams zlp exampleEmissions none).getLast?.getD 0)
          ((s_fcs exampleParams zlp exampleEmissions none).getLast?.getD 0)
          (w7_split2 0).2 ∧
     (∀ t, t + 1 < exampleEmissions.length →
      (extended_kalman_posterior_sample w7_split2 w7_splitN w7_sample 0 exampleParams zlp
          exampleEmissions none).getD t 0
        = w7_sample
            (condition_on ((s_fms exampleParams zlp exampleEmissions none).getD t 0)
              ((s_fcs exampleParams zlp exampleEmissions none).getD t 0)
              exampleParams.dynamics_function exampleParams.dynamics_jacobian
              (get_params exampleParams.dynamics_covariance t)
              (seq_get (resolve_inputs none exampleEmissions.length) t)
              ((extended_kalman_posterior_sample w7_split2 w7_splitN w7_sample 0
                  exampleParams zlp exampleEmissions none).getD (t + 1) 0) 1).1
            (condition_on ((s_fms exampleParams zlp exampleEmissions none).getD t 0)
              ((s_fcs exampleParams zlp exampleEmissions none).getD t 0)
              exampleParams.dynamics_function exampleParams.dynamics_jacobian
              (get_params exampleParams.dynamics_covariance t)
              (seq_get (resolve_inputs none exampleEmissions.length) t)
              ((extended_kalman_posterior_sample w7_split2 w7_splitN w7_sample 0
                  exampleParams zlp exampleEmissions none).getD (t + 1) 0) 1).2
            (w7_splitN (w7_split2 0).1 (exampleEmissions.length - 1) t))) :=
  ⟨by decide,
    C7_posterior_sampler_structure w7_split2 w7_splitN w7_sample 0 exampleParams zlp
      exampleEmissions none (by decide)⟩

/-! ### Silent clamping of length-mismatched time-varying parameters (C8) -/

theorem getD_length_sub_one {α : Type} (l : List α) (d : α) (hl : l ≠ []) :
    l.getD (l.length - 1) d = l.getLast?.getD d := by
  induction l with
  | nil => cases hl rfl
  | cons x xs ih =>
    cases xs with
    | nil => rfl
    | cons y ys =>
      have := ih (by simp)
      simpa [List.getLast?_cons_cons] using this

theorem getD_replicate_of_lt {α : Type} (n m : Nat) (a d : α) (h : m < n) :
    (List.replicate n a).getD m d = a := by
  induction n generalizing m with
  | zero => cases h
  | succ n ih =>
    cases m with
    | zero => rfl
    | succ m => exact ih m (Nat.lt_of_succ_lt_succ h)

/-- A per-timestep covariance list padded to length `T` by repeating its
last element — the sequence that index clamping makes a shorter list behave
like. -/
def pad_last {n : Nat} (l : List (Mat n n)) (T : Nat) : List (Mat n n) :=
  l ++ List.replicate (T - l.length) (l.getLast?.getD 0)

theorem get_params_pad {n : Nat} (l : List (Mat n n)) (T t : Nat) (hl : l ≠ [])
    (ht : t < T) :
    get_params (.varying l) t = get_params (.varying (pad_last l T)) t := by
  have hlp : 0 < l.length := List.length_pos.mpr hl
  have hplen : (pad_last l T).length = max l.length T := by
    simp [pad_last]
    omega
  rcases Nat.lt_or_ge t l.length with h | h
  · have h1 : min t (l.length - 1) = t := by omega
    have h2 : min t ((pad_last l T).length - 1) = t := by
      rw [hplen]
      omega
    simp only [get_params, h1, h2]
    rw [pad_last, List.getD_append _ _ _ _ h]
  · have h1 : min t (l.length - 1) = l.length - 1 := by omega
    have h2 : min t ((pad_last l T).length - 1) = t := by
      rw [hplen]
      omega
    simp only [get_params, h1, h2]
    rw [pad_last, List.getD_append_right _ _ _ _ h,
      getD_replicate_of_lt _ _ _ _ (by omega)]
    exact getD_length_sub_one l 0 hl

theorem filter_pad_congr {S E U : Nat} (params : ParamsNLGSSM S E U)
    (logpdf : Vec E → Mat E E → Vec E → ℚ) (emissions : List (Vec E))
    (inputs : Option (List (Vec U))) (n : Nat) (fields : List String)
    (l : List (Mat S S)) (hl : l ≠ [])
    (hP : params.dynamics_covariance = .varying l) :
    extended_kalman_filter params logpdf emissions inputs n fields
      = extended_kalman_filter
          { params with dynamics_covariance := .varying (pad_last l emissions.length) }
          logpdf emissions inputs n fields := by
  have hscan : ekf_scan params logpdf emissions inputs n
      = ekf_scan
          { params with dynamics_covariance := .varying (pad_last l emissions.length) }
          logpdf emissions inputs n := by
    unfold ekf_scan
    apply scanl_congr
    intro c t ht
    have ht' : t < emissions.length := List.mem_range.mp ht
    unfold filter_step
    rw [hP, get_params_pad l emissions.length t hl ht']
  unfold extended_kalman_filter
  rw [hscan]

/-- Claim C8 (amended): no eager dimension or length validation is
performed.  A per-timestep dynamics covariance whose leading length differs
from the number of observations is silently index-clamped — timesteps at or
past its end reuse its last matrix — so the filter behaves exactly as if the
array had been padded to length `T` with its last matrix, and it returns a
normal posterior rather than reporting a fatal error. -/
theorem C8_amended_silent_clamping {S E U : Nat} (params params2 : ParamsNLGSSM S E U)
    (logpdf : Vec E → Mat E E → Vec E → ℚ) (emissions : List (Vec E))
    (inputs : Option (List (Vec U))) (n : Nat) (fields : List String)
    (l : List (Mat S S)) (hl : l ≠ [])
    (hP : params.dynamics_covariance = .varying l)
    (h2 : params2
      = { params with dynamics_covariance := .varying (pad_last l emissions.length) }) :
    extended_kalman_filter params logpdf emissions inputs n fields
      = extended_kalman_filter params2 logpdf emissions inputs n fields := by
  subst h2
  exact filter_pad_congr params logpdf emissions inputs n fields l hl hP

/-- The example model with a time-varying dynamics covariance of length 1,
shorter than the three observations. -/
def exampleParamsShortQ : ParamsNLGSSM 1 1 1 :=
  { exampleParams with dynamics_covariance := .varying [cmat (1/10)] }

/-- The same model with the per-timestep covariance padded to the
observation count. -/
def exampleParamsPadQ : ParamsNLGSSM 1 1 1 :=
  { exampleParams with
      dynamics_covariance := .varying (pad_last [cmat (1/10)] exampleEmissions.length) }

theorem C8_counterexample_no_eager_error :
    extended_kalman_filter exampleParamsShortQ zlp exampleEmissions none 1
        default_output_fields
      = extended_kalman_filter exampleParamsPadQ zlp exampleEmissions none 1
        default_output_fields :=
  filter_pad_congr exampleParamsShortQ zlp exampleEmissions none 1 default_output_fields
    [cmat (1/10)] (by simp) rfl

theorem C8_amended_silent_clamping_witness :
    (([cmat (1/10)] : List (Mat 1 1)) ≠ [] ∧
     exampleParamsShortQ.dynamics_covariance = .varying [cmat (1/10)] ∧
     exampleParamsPadQ = { exampleParamsShortQ with
       dynamics_covariance := .varying (pad_last [cmat (1/10)] exampleEmissions.length) }) ∧
    extended_kalman_filter exampleParamsShortQ zlp exampleEmissions none 1
        default_output_fields
      = extended_kalman_filter exampleParamsPadQ zlp exampleEmissions none 1
        default_output_fields :=
  ⟨⟨by simp, rfl, rfl⟩,
    C8_amended_silent_clamping exampleParamsShortQ exampleParamsPadQ zlp exampleEmissions
      none 1 default_output_fields [cmat (1/10)] (by simp) rfl rfl⟩

/-! ### Output-field selection and the marginal log-likelihood (C9) -/

theorem scanl_last_proj {C X Y Z : Type} (f : C → X → C × Y) (g : C → Z) (h : Y → Z)
    (hfg : ∀ c x, h (f c x).2 = g (f c x).1) (c : C) (xs : List X) (hxs : xs ≠ []) :
    ((scanl f c xs).2.map h).getLast? = some (g (scanl f c xs).1) := by
  induction xs generalizing c with
  | nil => cases hxs rfl
  | cons x xs ih =>
    cases xs with
    | nil => simp [scanl, hfg]
    | cons x2 xs2 =>
      have h2 := ih (f c x).1 (by simp)
      simp only [scanl, List.map_cons]
      rw [List.getLast?_cons_cons]
      simpa [scanl] using h2

/-- Claim C9 (amended): each of the four mean/covariance fields is retained
exactly when its name is selected in `output_fields`; the `marginal_loglik`
field is the single scalar total only when `"marginal_loglik"` is *not*
selected — when it is selected, the per-step output dictionary overrides the
scalar, so the field holds the length-`T` sequence of running accumulated
log-likelihoods, whose last entry (for `T ≥ 1`) is the scalar total. -/
theorem C9_amended_output_fields {S E U : Nat} (params : ParamsNLGSSM S E U)
    (logpdf : Vec E → Mat E E → Vec E → ℚ) (emissions : List (Vec E))
    (inputs : Option (List (Vec U))) (n : Nat) (fields : List String) :
    (("marginal_loglik" ∈ fields →
        (extended_kalman_filter params logpdf emissions inputs n fields).marginal_loglik
          = .perStep ((ekf_scan params logpdf emissions inputs n).2.map (·.ll))) ∧
     ("marginal_loglik" ∉ fields →
        (extended_kalman_filter params logpdf emissions inputs n fields).marginal_loglik
          = .scalar ((ekf_scan params logpdf emissions inputs n).1.1)) ∧
     (emissions ≠ [] →
        ((ekf_scan params logpdf emissions inputs n).2.map (·.ll)).getLast?
          = some ((ekf_scan params logpdf emissions inputs n).1.1))) ∧
    (("filtered_means" ∈ fields →
        (extended_kalman_filter params logpdf emissions inputs n fields).filtered_means
          = some ((ekf_scan params logpdf emissions inputs n).2.map (·.filtered_mean))) ∧
     ("filtered_means" ∉ fields →
        (extended_kalman_filter params logpdf emissions inputs n fields).filtered_means
          = none) ∧
     ("filtered_covariances" ∈ fields →
        (extended_kalman_filter params logpdf emissions inputs n
            fields).filtered_covariances
          = some ((ekf_scan params logpdf emissions inputs n).2.map (·.filtered_cov))) ∧
     ("filtered_covariances" ∉ fields →
        (extended_kalman_filter params logpdf emissions inputs n
            fields).filtered_covariances = none) ∧
     ("predicted_means" ∈ fields →
        (extended_kalman_filter params logpdf emissions inputs n fields).predicted_means
          = some ((ekf_scan params logpdf emissions inputs n).2.map (·.pred_mean))) ∧
     ("predicted_means" ∉ fields →
        (extended_kalman_filter params logpdf emissions inputs n fields).predicted_means
          = none) ∧
     ("predicted_covariances" ∈ fields →
        (extended_kalman_filter params logpdf emissions inputs n
            fields).predicted_covariances
          = some ((ekf_scan params logpdf emissions inputs n).2.map (·.pred_cov))) ∧
     ("predicted_covariances" ∉ fields →
        (extended_kalman_filter params logpdf emissions inputs n
            fields).predicted_covariances = none)) := by
  have hlast : emissions ≠ [] →
      ((ekf_scan params logpdf emissions inputs n).2.map (·.ll)).getLast?
        = some ((ekf_scan params logpdf emissions inputs n).1.1) := by
    intro hne
    have hr : List.range emissions.length ≠ [] := by
      simp [List.range_eq_nil]
      exact hne
    exact scanl_last_proj
      (filter_step params logpdf (resolve_inputs inputs emissions.length) emissions n)
      (fun c => c.1) (fun o => o.ll) (fun c x => rfl)
      (0, params.initial_mean, params.initial_covariance)
      (List.range emissions.length) hr
  refine ⟨⟨?_, ?_, hlast⟩, ?_, ?_, ?_, ?_, ?_, ?_, ?_, ?_⟩ <;>
    intro hmem <;>
    simp [extended_kalman_filter, hmem]

theorem C9_amended_output_fields_witness :
    ("marginal_loglik" ∈ (["marginal_loglik"] : List String) ∧
     "filtered_means" ∉ (["marginal_loglik"] : List String) ∧
     exampleEmissions ≠ []) ∧
    ((extended_kalman_filter exampleParams zlp exampleEmissions none 1
        ["marginal_loglik"]).marginal_loglik
      = .perStep ((ekf_scan exampleParams zlp exampleEmissions none 1).2.map (·.ll)) ∧
     (extended_kalman_filter exampleParams zlp exampleEmissions none 1
        ["marginal_loglik"]).filtered_means = none ∧
     ((ekf_scan exampleParams zlp exampleEmissions none 1).2.map (·.ll)).getLast?
      = some ((ekf_scan exampleParams zlp exampleEmissions none 1).1.1)) :=
  ⟨⟨by decide, by decide, by decide⟩,
    (C9_amended_output_fields exampleParams zlp exampleEmissions none 1
        ["marginal_loglik"]).1.1 (by decide),
    (C9_amended_output_fields exampleParams zlp exampleEmissions none 1
        ["marginal_loglik"]).2.2.1 (by decide),
    (C9_amended_output_fields exampleParams zlp exampleEmissions none 1
        ["marginal_loglik"]).1.2.2 (by decide)⟩

theorem C9_counterexample_loglik_override :
    (extended_kalman_filter exampleParams zlp exampleEmissions none 1
        ["marginal_loglik"]).marginal_loglik
      ≠ MarginalLL.scalar ((ekf_scan exampleParams zlp exampleEmissions none 1).1.1) := by
  have heq : (extended_kalman_filter exampleParams zlp exampleEmissions none 1
      ["marginal_loglik"]).marginal_loglik
      = .perStep ((ekf_scan exampleParams zlp exampleEmissions none 1).2.map (·.ll)) := by
    simp [extended_kalman_filter]
  rw [heq]
  intro hc
  exact MarginalLL.noConfusion hc
